import Mathlib

/-!
# Verification of the DiscreetKit document generator's text-flow logic

Shallow embedding of the word-wrap and paginated text-flow code of
`src/templates/letterhead.py`, the brand-color loader of
`src/templates/common.py`, and the template dispatch of `src/main.py`.

Python floats are modelled as rationals (`ℚ`), Python exceptions as
`Option`/`Except` values, and Python dictionaries as association lists
with last-write-wins lookup.
-/

namespace DiscreetKit

/-! ## Python `str.split()` (whitespace split, empties dropped) -/

/-- Helper for `pySplit`: walks the character list, accumulating the current
word (in reverse); whitespace ends the current word, empty words are dropped.
This models Python's `paragraph.split()` with no arguments. -/
def splitWSAux : List Char → List Char → List String
  | [], [] => []
  | [], cur => [String.mk cur.reverse]
  | c :: rest, cur =>
      if c.isWhitespace then
        match cur with
        | [] => splitWSAux rest []
        | _ => String.mk cur.reverse :: splitWSAux rest []
      else splitWSAux rest (c :: cur)

/-- Model of Python `paragraph.split()`: split on whitespace runs, dropping
empty tokens (so leading/trailing/consecutive whitespace yields no words). -/
def pySplit (s : String) : List String :=
  splitWSAux s.toList []

/-- Join a list of words with single spaces (what the wrap loop's string
buffer `cur` holds at any time: `test = cur + " " + wrd`). -/
def joinWords : List String → String
  | [] => ""
  | [w] => w
  | w :: ws => w ++ " " ++ joinWords ws

theorem joinWords_cons_cons (w v : String) (ws : List String) :
    joinWords (w :: v :: ws) = w ++ " " ++ joinWords (v :: ws) := rfl

theorem joinWords_snoc (ws : List String) (hne : ws ≠ []) (x : String) :
    joinWords (ws ++ [x]) = joinWords ws ++ " " ++ x := by
  induction ws with
  | nil => cases hne rfl
  | cons w ws ih =>
      cases ws with
      | nil => rfl
      | cons v vs =>
          have h2 : (v :: vs : List String) ≠ [] := by simp
          have e1 : joinWords ((w :: v :: vs) ++ [x])
              = w ++ " " ++ joinWords ((v :: vs) ++ [x]) := rfl
          rw [e1, ih h2]
          simp [joinWords_cons_cons, String.append_assoc]

/-! ## Python `int()` truncation and the fallback character estimate -/

/-- Python `int(x)` on a float: truncation toward zero. -/
def pyTrunc (q : ℚ) : ℤ := if 0 ≤ q then ⌊q⌋ else ⌈q⌉

/-- `max_chars = int(available_width / (font_size * 0.5))` from the
character-count fallback branch of `wrap_paragraph`
(src/templates/letterhead.py line 128). -/
def maxCharsOf (availableWidth fontSize : ℚ) : ℤ :=
  pyTrunc (availableWidth / (fontSize * (1/2)))

/-! ## The wrap loop of `wrap_paragraph` (src/templates/letterhead.py 115-142)

The measurement callback `c.stringWidth(test, font_name, font_size)` can
raise (caught by the `except` branch); it is modelled as an
`Option ℚ`-valued function of the tentative line, `none` meaning the
measurement raised. -/

/-- A width-measurement callback; `none` models a raised exception. -/
abbrev Meas := String → Option ℚ

/-- One iteration of the `for wrd in words[1:]` loop of `wrap_paragraph`:
the accumulator is `(lines, cur)`.  `test = cur + " " + wrd` is measured;
on success the width is compared against `available_width`; on failure the
character-count fallback compares `len(test)` against `max_chars`. -/
def wrapStep (m : Meas) (availableWidth fontSize : ℚ)
    (acc : List String × String) (wrd : String) : List String × String :=
  let test := acc.2 ++ " " ++ wrd
  match m test with
  | none =>
      if (test.length : ℤ) > maxCharsOf availableWidth fontSize then
        (acc.1 ++ [acc.2], wrd)
      else
        (acc.1, test)
  | some width =>
      if width ≤ availableWidth then (acc.1, test)
      else (acc.1 ++ [acc.2], wrd)

/-- The body of `wrap_paragraph` acting on the word list: empty word lists
return `[""]`; otherwise the buffer starts with the first word, the loop
runs over the remaining words, and the final buffer is appended. -/
def wrapWords (m : Meas) (aw fs : ℚ) (words : List String) : List String :=
  match words with
  | [] => [""]
  | w :: ws =>
      let r := ws.foldl (wrapStep m aw fs) ([], w)
      r.1 ++ [r.2]

/-- `wrap_paragraph` from src/templates/letterhead.py lines 115-142:
split the paragraph on whitespace and run the greedy wrap loop. -/
def wrap_paragraph (m : Meas) (aw fs : ℚ) (paragraph : String) : List String :=
  wrapWords m aw fs (pySplit paragraph)

/-! ## Spec-level greedy wrap (from the spec's words, for the C1 refinement)

Spec §4.1 steps 2-3: start a line buffer with the first word; for each
subsequent word, tentatively append it (space-joined) and measure; if the
tentative width ≤ column width accept, else emit the buffer and start a new
buffer with the word; after the last word emit the buffer. -/

/-- Spec-level greedy accumulation: `buf` is the current line buffer. -/
def greedyWrapAux (m : String → ℚ) (cw : ℚ) : String → List String → List String
  | buf, [] => [buf]
  | buf, w :: ws =>
      if m (buf ++ " " ++ w) ≤ cw then greedyWrapAux m cw (buf ++ " " ++ w) ws
      else buf :: greedyWrapAux m cw w ws

/-- Spec-level greedy word wrap over a word list (empty list: one blank
line, per spec §4.1 step 1). -/
def greedy_wrap (m : String → ℚ) (cw : ℚ) (words : List String) : List String :=
  match words with
  | [] => [""]
  | w :: ws => greedyWrapAux m cw w ws

theorem wrapFold_greedy (m : String → ℚ) (aw fs : ℚ) :
    ∀ (ws : List String) (lines : List String) (buf : String),
      (ws.foldl (wrapStep (fun s => some (m s)) aw fs) (lines, buf)).1 ++
        [(ws.foldl (wrapStep (fun s => some (m s)) aw fs) (lines, buf)).2] =
      lines ++ greedyWrapAux m aw buf ws := by
  intro ws
  induction ws with
  | nil => intro lines buf; simp [greedyWrapAux]
  | cons w ws ih =>
      intro lines buf
      by_cases h : m (buf ++ " " ++ w) ≤ aw
      · simp only [List.foldl_cons, wrapStep, h, if_pos, greedyWrapAux]
        exact ih lines (buf ++ " " ++ w)
      · simp only [List.foldl_cons, wrapStep, greedyWrapAux, if_neg h]
        rw [ih (lines ++ [buf]) w]
        simp

theorem wrapWords_greedy (m : String → ℚ) (aw fs : ℚ) (words : List String) :
    wrapWords (fun s => some (m s)) aw fs words = greedy_wrap m aw words := by
  cases words with
  | nil => rfl
  | cons w ws =>
      simpa [wrapWords, greedy_wrap] using wrapFold_greedy m aw fs ws [] w

/-! ## Exact characterizations of one wrap-loop iteration -/

theorem wrapStep_eq (m : Meas) (aw fs : ℚ) (lines : List String) (cur wrd : String) :
    wrapStep m aw fs (lines, cur) wrd
      = match m (cur ++ " " ++ wrd) with
        | none =>
            if ((cur ++ " " ++ wrd).length : ℤ) > maxCharsOf aw fs
            then (lines ++ [cur], wrd) else (lines, cur ++ " " ++ wrd)
        | some width =>
            if width ≤ aw then (lines, cur ++ " " ++ wrd)
            else (lines ++ [cur], wrd) := rfl

theorem wrapStep_none_big {m : Meas} {aw fs : ℚ} {lines : List String} {cur wrd : String}
    (hm : m (cur ++ " " ++ wrd) = none)
    (hb : ((cur ++ " " ++ wrd).length : ℤ) > maxCharsOf aw fs) :
    wrapStep m aw fs (lines, cur) wrd = (lines ++ [cur], wrd) := by
  simp only [wrapStep_eq, hm]
  rw [if_pos hb]

theorem wrapStep_none_small {m : Meas} {aw fs : ℚ} {lines : List String} {cur wrd : String}
    (hm : m (cur ++ " " ++ wrd) = none)
    (hb : ¬ (((cur ++ " " ++ wrd).length : ℤ) > maxCharsOf aw fs)) :
    wrapStep m aw fs (lines, cur) wrd = (lines, cur ++ " " ++ wrd) := by
  simp only [wrapStep_eq, hm]
  rw [if_neg hb]

theorem wrapStep_some_le {m : Meas} {aw fs width : ℚ} {lines : List String} {cur wrd : String}
    (hm : m (cur ++ " " ++ wrd) = some width) (hb : width ≤ aw) :
    wrapStep m aw fs (lines, cur) wrd = (lines, cur ++ " " ++ wrd) := by
  simp only [wrapStep_eq, hm]
  rw [if_pos hb]

theorem wrapStep_some_gt {m : Meas} {aw fs width : ℚ} {lines : List String} {cur wrd : String}
    (hm : m (cur ++ " " ++ wrd) = some width) (hb : ¬ width ≤ aw) :
    wrapStep m aw fs (lines, cur) wrd = (lines ++ [cur], wrd) := by
  simp only [wrapStep_eq, hm]
  rw [if_neg hb]

/-! ## Chunk decomposition: each wrapped line is a join of consecutive words -/

theorem wrapFold_chunks (m : Meas) (aw fs : ℚ) :
    ∀ (ws : List String) (cl : List (List String)) (cur : List String),
      cur ≠ [] → (∀ ch ∈ cl, ch ≠ []) →
      ∃ (cl' : List (List String)) (cur' : List String), cur' ≠ [] ∧
        (∀ ch ∈ cl', ch ≠ []) ∧
        cl'.flatten ++ cur' = cl.flatten ++ cur ++ ws ∧
        ws.foldl (wrapStep m aw fs) (cl.map joinWords, joinWords cur)
          = (cl'.map joinWords, joinWords cur') := by
  intro ws
  induction ws with
  | nil =>
      intro cl cur hcur hcl
      exact ⟨cl, cur, hcur, hcl, by simp, rfl⟩
  | cons wrd ws ih =>
      intro cl cur hcur hcl
      have hsnoc := joinWords_snoc cur hcur wrd
      have hstep :
          wrapStep m aw fs (cl.map joinWords, joinWords cur) wrd
            = (cl.map joinWords, joinWords (cur ++ [wrd])) ∨
          wrapStep m aw fs (cl.map joinWords, joinWords cur) wrd
            = ((cl ++ [cur]).map joinWords, joinWords [wrd]) := by
        cases hm : m (joinWords cur ++ " " ++ wrd) with
        | none =>
            by_cases hb : ((joinWords cur ++ " " ++ wrd).length : ℤ)
                > maxCharsOf aw fs
            · right
              rw [wrapStep_none_big hm hb]
              simp [joinWords]
            · left
              rw [wrapStep_none_small hm hb, hsnoc]
        | some width =>
            by_cases hb : width ≤ aw
            · left
              rw [wrapStep_some_le hm hb, hsnoc]
            · right
              rw [wrapStep_some_gt hm hb]
              simp [joinWords]
      rcases hstep with h | h
      · obtain ⟨cl', cur', h1, h2, h3, h4⟩ :=
          ih cl (cur ++ [wrd]) (by simp) hcl
        refine ⟨cl', cur', h1, h2, ?_, ?_⟩
        · rw [h3]; simp
        · rw [List.foldl_cons, h]; exact h4
      · obtain ⟨cl', cur', h1, h2, h3, h4⟩ :=
          ih (cl ++ [cur]) [wrd] (by simp)
            (by intro ch hch
                rcases List.mem_append.mp hch with hL | hR
                · exact hcl ch hL
                · simp at hR; subst hR; exact hcur)
        refine ⟨cl', cur', h1, h2, ?_, ?_⟩
        · rw [h3]; simp
        · rw [List.foldl_cons, h]; exact h4

theorem wrapWords_chunks (m : Meas) (aw fs : ℚ) (w : String) (ws : List String) :
    ∃ chunks : List (List String), chunks ≠ [] ∧ (∀ ch ∈ chunks, ch ≠ []) ∧
      chunks.flatten = w :: ws ∧
      wrapWords m aw fs (w :: ws) = chunks.map joinWords := by
  obtain ⟨cl', cur', h1, h2, h3, h4⟩ :=
    wrapFold_chunks m aw fs ws [] [w] (by simp) (by simp)
  have hstart : (([] : List (List String)).map joinWords, joinWords [w])
      = (([] : List String), w) := by simp [joinWords]
  refine ⟨cl' ++ [cur'], by simp, ?_, ?_, ?_⟩
  · intro ch hch
    rcases List.mem_append.mp hch with hL | hR
    · exact h2 ch hL
    · simp at hR; subst hR; exact h1
  · simpa using h3
  · rw [hstart] at h4
    simp [wrapWords, h4, List.map_append]

/-! ## Width-fit invariant: a finished line fits unless it is a lone word -/

theorem wrapFold_fit (m : String → ℚ) (aw fs : ℚ) (S : List String) :
    ∀ (ws lines : List String) (cur : String),
      (∀ x ∈ ws, x ∈ S) →
      (∀ ln ∈ lines, m ln ≤ aw ∨ ln ∈ S) →
      (m cur ≤ aw ∨ cur ∈ S) →
      (∀ ln ∈ (ws.foldl (wrapStep (fun s => some (m s)) aw fs) (lines, cur)).1,
          m ln ≤ aw ∨ ln ∈ S) ∧
      (m ((ws.foldl (wrapStep (fun s => some (m s)) aw fs) (lines, cur)).2) ≤ aw ∨
        (ws.foldl (wrapStep (fun s => some (m s)) aw fs) (lines, cur)).2 ∈ S) := by
  intro ws
  induction ws with
  | nil =>
      intro lines cur _ hl hc
      exact ⟨hl, hc⟩
  | cons wrd ws ih =>
      intro lines cur hws hl hc
      have hwrd : wrd ∈ S := hws wrd (by simp)
      have hws' : ∀ x ∈ ws, x ∈ S := fun x hx => hws x (by simp [hx])
      by_cases h : m (cur ++ " " ++ wrd) ≤ aw
      · have hstep : wrapStep (fun s => some (m s)) aw fs (lines, cur) wrd
            = (lines, cur ++ " " ++ wrd) := by simp [wrapStep, h]
        rw [List.foldl_cons, hstep]
        exact ih lines (cur ++ " " ++ wrd) hws' hl (Or.inl h)
      · have hstep : wrapStep (fun s => some (m s)) aw fs (lines, cur) wrd
            = (lines ++ [cur], wrd) := by simp [wrapStep, h]
        rw [List.foldl_cons, hstep]
        refine ih (lines ++ [cur]) wrd hws' ?_ (Or.inr hwrd)
        intro ln hln
        rcases List.mem_append.mp hln with hL | hR
        · exact hl ln hL
        · simp at hR; subst hR; exact hc

/-! ## The character-count fallback behaves like a greedy wrap on lengths -/

theorem wrapStep_fallback (aw fs : ℚ) :
    wrapStep (fun _ => none) aw fs
      = wrapStep (fun s => some ((s.length : ℚ))) ((maxCharsOf aw fs : ℤ) : ℚ) fs := by
  funext acc wrd
  obtain ⟨lines, cur⟩ := acc
  by_cases h : ((cur ++ " " ++ wrd).length : ℤ) ≤ maxCharsOf aw fs
  · have h3 : (((cur ++ " " ++ wrd).length : ℕ) : ℚ) ≤ ((maxCharsOf aw fs : ℤ) : ℚ) := by
      exact_mod_cast h
    rw [wrapStep_none_small rfl (not_lt.mpr h), wrapStep_some_le rfl h3]
  · have h3 : ¬ ((((cur ++ " " ++ wrd).length : ℕ) : ℚ) ≤ ((maxCharsOf aw fs : ℤ) : ℚ)) := by
      intro hq
      exact h (by exact_mod_cast hq)
    rw [wrapStep_none_big rfl (not_le.mp h), wrapStep_some_gt rfl h3]

theorem wrapWords_fallback (aw fs : ℚ) (words : List String) :
    wrapWords (fun _ => none) aw fs words
      = greedy_wrap (fun s => (s.length : ℚ)) ((maxCharsOf aw fs : ℤ) : ℚ) words := by
  cases words with
  | nil => rfl
  | cons w ws =>
      have h1 : wrapWords (fun _ => none) aw fs (w :: ws)
          = wrapWords (fun s => some ((s.length : ℚ)))
              ((maxCharsOf aw fs : ℤ) : ℚ) fs (w :: ws) := by
        simp only [wrapWords, wrapStep_fallback aw fs]
      rw [h1, wrapWords_greedy]

/-! ## The paginated body-layout loop of `generate`
(src/templates/letterhead.py lines 149-192)

The loop is abstracted, as in spec §4.1, to an instruction emitter: drawing
a line with `text_obj.textLine` becomes `Instr.placeLine text y` at the
tracked cursor `y`, and `c.showPage()` followed by re-creating the text
object at `h - top_margin` becomes `Instr.pageBreak` (footer drawing and
watermarks are page-finalization effects owned by the caller, per the spec,
and are not part of the instruction stream). -/

/-- A layout instruction, per spec §4.1. -/
inductive Instr where
  | placeLine (text : String) (y : ℚ)
  | pageBreak
deriving DecidableEq

/-- The page geometry fixed by `generate` before the body loop
(src/templates/letterhead.py lines 95-109). -/
structure LayoutCfg where
  h : ℚ
  top_margin : ℚ
  bottom_reserved : ℚ
  leading : ℚ
  available_width : ℚ
  font_size : ℚ
deriving DecidableEq

/-- Placing one pending line `ln`: the pagination check
`if y - leading < bottom_reserved` runs first; on overflow a page break is
emitted and the cursor resets to `h - top_margin` before the line is
placed; then the line is placed at the cursor and the cursor drops by one
leading (src/templates/letterhead.py lines 153-173). -/
def placeLineStep (cfg : LayoutCfg) (acc : List Instr × ℚ) (ln : String) :
    List Instr × ℚ :=
  if acc.2 - cfg.leading < cfg.bottom_reserved then
    (acc.1 ++ [Instr.pageBreak, Instr.placeLine ln (cfg.h - cfg.top_margin)],
      cfg.h - cfg.top_margin - cfg.leading)
  else
    (acc.1 ++ [Instr.placeLine ln acc.2], acc.2 - cfg.leading)

/-- One iteration of `for paragraph in body_content`: wrap the paragraph,
place every wrapped line, then place one blank line unless the paragraph
(compared by value, `paragraph != body_content[-1]`) equals the last
element of the paragraph list (src/templates/letterhead.py lines 149-192). -/
def paragraphStep (m : Meas) (cfg : LayoutCfg) (lastP : String)
    (acc : List Instr × ℚ) (p : String) : List Instr × ℚ :=
  let acc1 := (wrap_paragraph m cfg.available_width cfg.font_size p).foldl
    (placeLineStep cfg) acc
  if p ≠ lastP then placeLineStep cfg acc1 "" else acc1

/-- The body-layout loop of `generate`: fold `paragraphStep` over the
paragraph list starting from cursor `y0` (`y = min(body_start_y, max_start)`
in the source); `body_content[-1]` is the fold-invariant last element. -/
def layout (m : Meas) (cfg : LayoutCfg) (y0 : ℚ) (ps : List String) :
    List Instr :=
  (ps.foldl (paragraphStep m cfg (ps.getLast?.getD "")) ([], y0)).1

/-! ## Cursor bound: no placed line crosses the reserved bottom margin -/

theorem placeLineStep_bound (cfg : LayoutCfg)
    (hgeom : cfg.bottom_reserved ≤ cfg.h - cfg.top_margin - cfg.leading)
    (acc : List Instr × ℚ) (ln : String)
    (hacc : ∀ t y, Instr.placeLine t y ∈ acc.1 →
      cfg.bottom_reserved ≤ y - cfg.leading) :
    ∀ t y, Instr.placeLine t y ∈ (placeLineStep cfg acc ln).1 →
      cfg.bottom_reserved ≤ y - cfg.leading := by
  intro t y hmem
  unfold placeLineStep at hmem
  split_ifs at hmem with hchk
  · simp only [List.mem_append, List.mem_cons, List.mem_singleton,
      List.not_mem_nil, or_false] at hmem
    rcases hmem with hL | hR | hR
    · exact hacc t y hL
    · exact absurd hR (by simp)
    · rw [Instr.placeLine.injEq] at hR
      rw [hR.2]
      exact hgeom
  · simp only [List.mem_append, List.mem_singleton] at hmem
    rcases hmem with hL | hR
    · exact hacc t y hL
    · rw [Instr.placeLine.injEq] at hR
      rw [hR.2]
      exact le_of_not_lt hchk

theorem linesFold_bound (cfg : LayoutCfg)
    (hgeom : cfg.bottom_reserved ≤ cfg.h - cfg.top_margin - cfg.leading) :
    ∀ (lns : List String) (acc : List Instr × ℚ),
      (∀ t y, Instr.placeLine t y ∈ acc.1 →
        cfg.bottom_reserved ≤ y - cfg.leading) →
      ∀ t y, Instr.placeLine t y ∈ (lns.foldl (placeLineStep cfg) acc).1 →
        cfg.bottom_reserved ≤ y - cfg.leading := by
  intro lns
  induction lns with
  | nil => intro acc hacc; exact hacc
  | cons ln lns ih =>
      intro acc hacc
      rw [List.foldl_cons]
      exact ih (placeLineStep cfg acc ln) (placeLineStep_bound cfg hgeom acc ln hacc)

theorem paragraphStep_bound (m : Meas) (cfg : LayoutCfg) (lastP : String)
    (hgeom : cfg.bottom_reserved ≤ cfg.h - cfg.top_margin - cfg.leading)
    (acc : List Instr × ℚ) (p : String)
    (hacc : ∀ t y, Instr.placeLine t y ∈ acc.1 →
      cfg.bottom_reserved ≤ y - cfg.leading) :
    ∀ t y, Instr.placeLine t y ∈ (paragraphStep m cfg lastP acc p).1 →
      cfg.bottom_reserved ≤ y - cfg.leading := by
  unfold paragraphStep
  split_ifs with hlast
  · exact placeLineStep_bound cfg hgeom _ ""
      (linesFold_bound cfg hgeom _ acc hacc)
  · exact linesFold_bound cfg hgeom _ acc hacc

theorem paragraphsFold_bound (m : Meas) (cfg : LayoutCfg) (lastP : String)
    (hgeom : cfg.bottom_reserved ≤ cfg.h - cfg.top_margin - cfg.leading) :
    ∀ (ps : List String) (acc : List Instr × ℚ),
      (∀ t y, Instr.placeLine t y ∈ acc.1 →
        cfg.bottom_reserved ≤ y - cfg.leading) →
      ∀ t y, Instr.placeLine t y ∈ (ps.foldl (paragraphStep m cfg lastP) acc).1 →
        cfg.bottom_reserved ≤ y - cfg.leading := by
  intro ps
  induction ps with
  | nil => intro acc hacc; exact hacc
  | cons p ps ih =>
      intro acc hacc
      rw [List.foldl_cons]
      exact ih (paragraphStep m cfg lastP acc p)
        (paragraphStep_bound m cfg lastP hgeom acc p hacc)

/-! ## Page breaks are immediately followed by a line at the top reset -/

/-- Every `pageBreak` at index `i` is immediately followed by a `placeLine`
at height `htop`. -/
def brkOk (htop : ℚ) (l : List Instr) : Prop :=
  ∀ i, l.get? i = some Instr.pageBreak →
    ∃ t, l.get? (i+1) = some (Instr.placeLine t htop)

theorem brkOk_append {htop : ℚ} {l₁ l₂ : List Instr}
    (h1 : brkOk htop l₁) (h2 : brkOk htop l₂) : brkOk htop (l₁ ++ l₂) := by
  intro i hi
  by_cases hlt : i < l₁.length
  · have hget : l₁.get? i = some Instr.pageBreak := by
      rw [← List.get?_append hlt]; exact hi
    obtain ⟨t, ht⟩ := h1 i hget
    have hlt2 : i + 1 < l₁.length := by
      have := List.get?_eq_some.mp ht
      exact this.1
    exact ⟨t, by rw [List.get?_append hlt2]; exact ht⟩
  · push_neg at hlt
    have hget : l₂.get? (i - l₁.length) = some Instr.pageBreak := by
      rw [← List.get?_append_right hlt]; exact hi
    obtain ⟨t, ht⟩ := h2 _ hget
    refine ⟨t, ?_⟩
    have hle : l₁.length ≤ i + 1 := le_trans hlt (Nat.le_succ i)
    rw [List.get?_append_right hle]
    have heq : i + 1 - l₁.length = (i - l₁.length) + 1 := by omega
    rw [heq]
    exact ht

theorem brkOk_nil (htop : ℚ) : brkOk htop [] := by
  intro i hi
  simp at hi

theorem brkOk_placeBlock (htop : ℚ) (t : String) (y : ℚ) :
    brkOk htop [Instr.placeLine t y] := by
  intro i hi
  match i with
  | 0 => simp at hi
  | (n+1) => simp at hi

theorem brkOk_breakBlock (htop : ℚ) (t : String) :
    brkOk htop [Instr.pageBreak, Instr.placeLine t htop] := by
  intro i hi
  match i with
  | 0 => exact ⟨t, rfl⟩
  | 1 => simp at hi
  | (n+2) => simp at hi

theorem placeLineStep_brkOk (cfg : LayoutCfg) (acc : List Instr × ℚ)
    (ln : String) (hacc : brkOk (cfg.h - cfg.top_margin) acc.1) :
    brkOk (cfg.h - cfg.top_margin) (placeLineStep cfg acc ln).1 := by
  unfold placeLineStep
  split_ifs
  · exact brkOk_append hacc (brkOk_breakBlock _ ln)
  · exact brkOk_append hacc (brkOk_placeBlock _ ln acc.2)

theorem linesFold_brkOk (cfg : LayoutCfg) :
    ∀ (lns : List String) (acc : List Instr × ℚ),
      brkOk (cfg.h - cfg.top_margin) acc.1 →
      brkOk (cfg.h - cfg.top_margin) ((lns.foldl (placeLineStep cfg) acc).1) := by
  intro lns
  induction lns with
  | nil => intro acc hacc; exact hacc
  | cons ln lns ih =>
      intro acc hacc
      rw [List.foldl_cons]
      exact ih _ (placeLineStep_brkOk cfg acc ln hacc)

theorem paragraphStep_brkOk (m : Meas) (cfg : LayoutCfg) (lastP : String)
    (acc : List Instr × ℚ) (p : String)
    (hacc : brkOk (cfg.h - cfg.top_margin) acc.1) :
    brkOk (cfg.h - cfg.top_margin) ((paragraphStep m cfg lastP acc p).1) := by
  unfold paragraphStep
  split_ifs
  · exact placeLineStep_brkOk cfg _ "" (linesFold_brkOk cfg _ acc hacc)
  · exact linesFold_brkOk cfg _ acc hacc

theorem paragraphsFold_brkOk (m : Meas) (cfg : LayoutCfg) (lastP : String) :
    ∀ (ps : List String) (acc : List Instr × ℚ),
      brkOk (cfg.h - cfg.top_margin) acc.1 →
      brkOk (cfg.h - cfg.top_margin)
        ((ps.foldl (paragraphStep m cfg lastP) acc).1) := by
  intro ps
  induction ps with
  | nil => intro acc hacc; exact hacc
  | cons p ps ih =>
      intro acc hacc
      rw [List.foldl_cons]
      exact ih _ (paragraphStep_brkOk m cfg lastP acc p hacc)

/-! ## Small evaluation helpers for concrete runs of the layout loop -/

theorem placeLineStep_noBreak {cfg : LayoutCfg} {acc : List Instr × ℚ} {ln : String}
    (hchk : ¬ (acc.2 - cfg.leading < cfg.bottom_reserved)) :
    placeLineStep cfg acc ln
      = (acc.1 ++ [Instr.placeLine ln acc.2], acc.2 - cfg.leading) := by
  unfold placeLineStep
  rw [if_neg hchk]

theorem placeLineStep_break {cfg : LayoutCfg} {acc : List Instr × ℚ} {ln : String}
    (hchk : acc.2 - cfg.leading < cfg.bottom_reserved) :
    placeLineStep cfg acc ln
      = (acc.1 ++ [Instr.pageBreak, Instr.placeLine ln (cfg.h - cfg.top_margin)],
          cfg.h - cfg.top_margin - cfg.leading) := by
  unfold placeLineStep
  rw [if_pos hchk]

theorem wrapWords_single (m : Meas) (aw fs : ℚ) (w : String) :
    wrapWords m aw fs [w] = [w] := by
  simp [wrapWords]

theorem paragraphStep_one_word (m : Meas) (cfg : LayoutCfg) (lastP : String)
    (acc : List Instr × ℚ) (p : String) (hw : pySplit p = [p]) :
    paragraphStep m cfg lastP acc p
      = if p ≠ lastP then placeLineStep cfg (placeLineStep cfg acc p) ""
        else placeLineStep cfg acc p := by
  unfold paragraphStep wrap_paragraph
  rw [hw, wrapWords_single]
  simp

theorem layout_single (m : Meas) (cfg : LayoutCfg) (y0 : ℚ) (w : String)
    (hw : pySplit w = [w]) (hchk : ¬ (y0 - cfg.leading < cfg.bottom_reserved)) :
    layout m cfg y0 [w] = [Instr.placeLine w y0] := by
  unfold layout
  rw [List.foldl_cons, List.foldl_nil, paragraphStep_one_word _ _ _ _ _ hw]
  rw [if_neg (by simp), placeLineStep_noBreak hchk]
  simp

theorem layout_single_break (m : Meas) (cfg : LayoutCfg) (y0 : ℚ) (w : String)
    (hw : pySplit w = [w]) (hchk : y0 - cfg.leading < cfg.bottom_reserved) :
    layout m cfg y0 [w]
      = [Instr.pageBreak, Instr.placeLine w (cfg.h - cfg.top_margin)] := by
  unfold layout
  rw [List.foldl_cons, List.foldl_nil, paragraphStep_one_word _ _ _ _ _ hw]
  rw [if_neg (by simp), placeLineStep_break hchk]
  simp

/-! ## Brand color loading (`load_brand_colors`, src/templates/common.py 119-159)

The JSON file's content is the `data` parameter (an ordered key/value list,
as Python dicts preserve insertion order); a JSON value is either a string
or something else (`isinstance(v, str)` is all the loader inspects).
`hex_to_color` raising `ValueError` is modelled as `none`. -/

/-- A JSON value as far as `load_brand_colors` inspects it. -/
inductive Jv where
  | str (s : String)
  | other
deriving DecidableEq

/-- A `reportlab` `colors.Color(r, g, b)` value. -/
structure Color where
  r : ℚ
  g : ℚ
  b : ℚ
deriving DecidableEq

/-- `colors.white`. -/
def white : Color := ⟨1, 1, 1⟩

/-- The character class `[0-9a-fA-F]` of the loader's regex. -/
def isHexDigitChar (c : Char) : Bool :=
  c.isDigit || ('a' ≤ c && c ≤ 'f') || ('A' ≤ c && c ≤ 'F')

/-- Full-string match of the regex `^#([0-9a-fA-F]{6})$`. -/
def matchesHexRe (h : String) : Bool :=
  match h.toList with
  | '#' :: ds => ds.length == 6 && ds.all isHexDigitChar
  | _ => false

/-- Python `str.strip()`: drop whitespace from both ends. -/
def pyStrip (s : String) : String :=
  String.mk (((s.toList.dropWhile Char.isWhitespace).reverse.dropWhile
    Char.isWhitespace).reverse)

/-- Value of one hex digit (only meaningful on `[0-9a-fA-F]`). -/
def hexVal (c : Char) : Nat :=
  if c.isDigit then c.toNat - '0'.toNat
  else if 'a' ≤ c && c ≤ 'f' then c.toNat - 'a'.toNat + 10
  else c.toNat - 'A'.toNat + 10

/-- `hex_to_color` from `load_brand_colors`: strip, validate against the
regex (raising, i.e. `none`, on failure), drop the leading `#`
(`h.lstrip("#")`), and build `colors.Color(r, g, b)` with each channel
`int(pair, 16) / 255.0`. -/
def hex_to_color (h : String) : Option Color :=
  let t := pyStrip h
  if matchesHexRe t then
    match t.toList.dropWhile (· == '#') with
    | d0 :: d1 :: d2 :: d3 :: d4 :: d5 :: _ =>
        some ⟨((16 * hexVal d0 + hexVal d1 : ℕ) : ℚ) / 255,
              ((16 * hexVal d2 + hexVal d3 : ℕ) : ℚ) / 255,
              ((16 * hexVal d4 + hexVal d5 : ℕ) : ℚ) / 255⟩
    | _ => none
  else none

/-- Python dict assignment `brand[k] = c`: overwrite in place, else append
(Python dicts keep first-insertion order on overwrite). -/
def dictInsert (k : String) (c : Color) : List (String × Color) → List (String × Color)
  | [] => [(k, c)]
  | (k', c') :: rest =>
      if k' = k then (k, c) :: rest else (k', c') :: dictInsert k c rest

/-- Python `brand.setdefault(k, c)`. -/
def dictSetdefault (k : String) (c : Color) (d : List (String × Color)) :
    List (String × Color) :=
  if (d.lookup k).isSome then d else d ++ [(k, c)]

/-- `load_brand_colors` from src/templates/common.py lines 119-159: keep
only string JSON values that parse as valid hex colors (invalid ones are
skipped by the `except` branch), then `setdefault` — for the single key
`"neutral_white"` only — before returning. -/
def load_brand_colors (data : List (String × Jv)) : List (String × Color) :=
  let brand := data.foldl (fun b kv =>
    match kv.2 with
    | Jv.str s =>
        match hex_to_color s with
        | some c => dictInsert kv.1 c b
        | none => b
    | Jv.other => b) []
  dictSetdefault "neutral_white" white brand

/-! ## Module imports of the letterhead template (C10)

`generate_template("letterhead", path)` first imports the module
`templates.letterhead`, whose header executes
`from templates.common import (...)`; a `from` import fails with
`ImportError` at the first listed name the source module does not define. -/

/-- The names `templates/letterhead.py` imports from `templates.common`,
in source order (src/templates/letterhead.py lines 11-22). -/
def letterhead_import_names : List String :=
  ["load_brand_colors", "add_watermark", "draw_modern_header",
   "draw_letterhead_dynamic_content", "draw_footer_block", "_choose_font",
   "canvas", "A4", "inch", "mm"]

/-- The module-level names `templates/common.py` defines: its `typing`
names, `os`/`json`/`re`, the five rendering-library names (bound in both
the real-import branch and the stub branch of its try/except header), the
two path constants, the font-registration flag, and its ten top-level
functions.  Branch-private helper names (`_canvas_mod`, `_StubCanvas`,
etc.) are omitted; none of them is imported by any template. -/
def common_defined_names : List String :=
  ["Dict", "Any", "os", "json", "re",
   "canvas", "colors", "A4", "pdfmetrics", "TTFont",
   "BASE_DIR", "ASSETS_DIR", "_SATOSHI_REGISTERED",
   "register_satoshi_font", "load_brand_colors", "_choose_font",
   "draw_header", "draw_letterhead_dynamic_content", "draw_footer",
   "_set_transparency", "add_watermark", "draw_modern_header",
   "draw_contact_strip"]

/-- Python `from templates.common import (names...)`: `ImportError` on the
first name `templates.common` does not define. -/
def import_from_common (names : List String) : Except String Unit :=
  match names.find? (fun n => !(common_defined_names.contains n)) with
  | some n => Except.error ("ImportError: cannot import name " ++ n)
  | none => Except.ok ()

/-- The `TEMPLATES` list of src/main.py lines 7-17. -/
def TEMPLATES : List String :=
  ["letterhead", "board_resolution", "watermark_template", "cover_page",
   "contract_employment", "nda", "privacy_policy", "investor_brief",
   "contract_template"]

/-- `generate_template("letterhead", output_path)` from src/main.py lines
20-27: the name-membership check runs first; then
`importlib.import_module("templates.letterhead")` executes the module's
header imports; only if that succeeds does `mod.generate(output_path)` run
(modelled as the produced document path). -/
def generate_template_letterhead (output_path : String) : Except String String :=
  if TEMPLATES.contains "letterhead" then
    match import_from_common letterhead_import_names with
    | Except.error e => Except.error e
    | Except.ok _ => Except.ok output_path
  else Except.error "Unknown template: letterhead"

/-! ## Claim theorems -/

/-- Claim C1: for every paragraph and every (total) measure function,
`wrap_paragraph` implements the greedy word-wrap rule exactly: the buffer
starts with the first word, each subsequent word is tentatively appended
space-joined and accepted when the measured tentative width is at most the
column width, otherwise the buffer is emitted and a new buffer starts with
that word, and after the last word the buffer is emitted — i.e. the wrap
equals the spec-level greedy wrap, so the first word that would exceed the
column triggers a break before it, not after. -/
theorem C1_wrap_paragraph_implements_greedy
    (m : String → ℚ) (aw fs : ℚ) (p : String) :
    wrap_paragraph (fun s => some (m s)) aw fs p
      = greedy_wrap m aw (pySplit p) := by
  rw [wrap_paragraph, wrapWords_greedy]

/-- Claim C2: with a (total) measure, every line emitted by
`wrap_paragraph` either has measured width at most the available column
width, or is a single word of the original paragraph placed alone (never
split mid-word) on its own line; the hypothesis `m "" ≤ aw` only serves
the blank-paragraph line `""`. -/
theorem C2_line_fits_or_is_single_word (m : String → ℚ) (aw fs : ℚ)
    (p : String) (hempty : m "" ≤ aw) :
    ∀ ln ∈ wrap_paragraph (fun s => some (m s)) aw fs p,
      m ln ≤ aw ∨ ln ∈ pySplit p := by
  unfold wrap_paragraph
  cases h : pySplit p with
  | nil =>
      intro ln hln
      simp only [wrapWords] at hln
      simp at hln
      subst hln
      exact Or.inl hempty
  | cons w ws =>
      intro ln hln
      have hfit := wrapFold_fit m aw fs (w :: ws) ws [] w
        (fun x hx => List.mem_cons_of_mem _ hx)
        (by intro l hl; simp at hl)
        (Or.inr (List.mem_cons_self _ _))
      simp only [wrapWords] at hln
      rcases List.mem_append.mp hln with hL | hR
      · exact hfit.1 ln hL
      · have he : ln = (ws.foldl (wrapStep (fun s => some (m s)) aw fs) ([], w)).2 := by
          simpa using hR
        rw [he]
        exact hfit.2

/-- Witness for C2 at a concrete input: with the constant measure 1 and
column width 5, the single emitted line "aa bb" satisfies the disjunction. -/
theorem C2_witness : (1:ℚ) ≤ 5 ∨ "aa bb" ∈ pySplit "aa bb" :=
  C2_line_fits_or_is_single_word (fun _ => (1:ℚ)) 5 11 "aa bb"
    (by decide) "aa bb" (by decide)

/-- Claim C3: for every paragraph and every measure (including failing
ones), the lines of `wrap_paragraph` are exactly the space-joins of a
partition of the paragraph's word list into consecutive chunks — so
concatenating the words of all emitted lines in order reproduces the
original word sequence with no word dropped, duplicated, reordered, or
split mid-word. -/
theorem C3_lines_concat_to_original_words (m : Meas) (aw fs : ℚ) (p : String) :
    ∃ chunks : List (List String),
      chunks.flatten = pySplit p ∧
      wrap_paragraph m aw fs p = chunks.map joinWords := by
  unfold wrap_paragraph
  cases h : pySplit p with
  | nil => exact ⟨[[]], by simp, by simp [wrapWords, joinWords]⟩
  | cons w ws =>
      obtain ⟨chunks, _, _, h3, h4⟩ := wrapWords_chunks m aw fs w ws
      exact ⟨chunks, h3, h4⟩

/-- Claim C4: provided the page geometry leaves room for one line below the
top reset (true of the source's hard-coded geometry), every line the layout
loop places — blank separator lines included, since the pagination check
runs before every placement — is placed at a height `y` with
`bottom_reserved ≤ y - leading`, i.e. the cursor never drops below the
reserved bottom margin while lines remain. -/
theorem C4_cursor_never_below_reserve (m : Meas) (cfg : LayoutCfg)
    (y0 : ℚ) (ps : List String)
    (hgeom : cfg.bottom_reserved ≤ cfg.h - cfg.top_margin - cfg.leading) :
    ∀ t y, Instr.placeLine t y ∈ layout m cfg y0 ps →
      cfg.bottom_reserved ≤ y - cfg.leading := by
  unfold layout
  exact paragraphsFold_bound m cfg _ hgeom ps ([], y0)
    (by intro t y hmem; simp at hmem)

/-- Witness for C4 at a concrete input: geometry 100/10/20/10, start
cursor 50, one paragraph; the placed line at height 50 respects the bound. -/
theorem C4_witness : (20:ℚ) ≤ 50 - 10 :=
  C4_cursor_never_below_reserve (fun _ => some (1:ℚ))
    ⟨100, 10, 20, 10, 5, 11⟩ 50 ["hi"] (by norm_num) "hi" 50
    (by rw [layout_single (fun _ => some (1:ℚ)) ⟨100, 10, 20, 10, 5, 11⟩ 50
          "hi" (show pySplit "hi" = ["hi"] from rfl)
          (show ¬ ((50:ℚ) - 10 < 20) by norm_num)]
        simp)

/-- Claim C5: after every emitted page break, the next instruction is a
placed line whose `y` equals the top-of-page reset position, which the
source computes as `h - top_margin` (the spec's `top_margin` cursor
value). -/
theorem C5_page_break_resets_next_line_to_top (m : Meas) (cfg : LayoutCfg)
    (y0 : ℚ) (ps : List String) (i : ℕ)
    (hi : (layout m cfg y0 ps).get? i = some Instr.pageBreak) :
    ∃ t, (layout m cfg y0 ps).get? (i+1)
      = some (Instr.placeLine t (cfg.h - cfg.top_margin)) :=
  paragraphsFold_brkOk m cfg (ps.getLast?.getD "") ps ([], y0)
    (brkOk_nil _) i hi

/-- Witness for C5 at a concrete input: starting at cursor 25 with bottom
reserve 20 and leading 10 forces an immediate page break; the instruction
after it is a line placed at the top reset 100 - 10. -/
theorem C5_witness :
    ∃ t, (layout (fun _ => some (1:ℚ)) ⟨100, 10, 20, 10, 5, 11⟩ 25
      ["hi"]).get? 1 = some (Instr.placeLine t ((100:ℚ) - 10)) :=
  C5_page_break_resets_next_line_to_top (fun _ => some (1:ℚ))
    ⟨100, 10, 20, 10, 5, 11⟩ 25 ["hi"] 0
    (by rw [layout_single_break (fun _ => some (1:ℚ)) ⟨100, 10, 20, 10, 5, 11⟩
          25 "hi" (show pySplit "hi" = ["hi"] from rfl)
          (show (25:ℚ) - 10 < 20 by norm_num)]
        rfl)

set_option maxHeartbeats 2000000 in
/-- Claim C6 (code bug evaluation): for the paragraph list `["A", "A"]`
the loop's separator test `paragraph != body_content[-1]` compares values,
so no blank line at all is emitted between the two paragraphs — the layout
stream is just the two text lines, contradicting the claim that exactly
one blank line follows every paragraph except the last one in the list. -/
theorem C6_duplicate_of_last_skips_blank_line :
    layout (fun _ => some (1:ℚ)) ⟨100, 10, 20, 10, 5, 11⟩ 50 ["A", "A"]
      = [Instr.placeLine "A" 50, Instr.placeLine "A" 40] := by
  have h1 : paragraphStep (fun _ => some (1:ℚ)) ⟨100, 10, 20, 10, 5, 11⟩ "A"
      ([], 50) "A" = ([Instr.placeLine "A" 50], 50 - 10) := by
    rw [paragraphStep_one_word _ _ _ _ _ (show pySplit "A" = ["A"] from rfl)]
    rw [if_neg (show ¬ ("A" ≠ "A") by simp)]
    rw [placeLineStep_noBreak (show ¬ ((50:ℚ) - 10 < 20) by norm_num)]
    simp
  have h2 : paragraphStep (fun _ => some (1:ℚ)) ⟨100, 10, 20, 10, 5, 11⟩ "A"
      ([Instr.placeLine "A" 50], 50 - 10) "A"
      = ([Instr.placeLine "A" 50, Instr.placeLine "A" (50 - 10)],
          50 - 10 - 10) := by
    rw [paragraphStep_one_word _ _ _ _ _ (show pySplit "A" = ["A"] from rfl)]
    rw [if_neg (show ¬ ("A" ≠ "A") by simp)]
    rw [placeLineStep_noBreak (show ¬ ((50:ℚ) - 10 - 10 < 20) by norm_num)]
    simp
  unfold layout
  rw [show ((["A", "A"] : List String).getLast?).getD "" = "A" from rfl]
  rw [List.foldl_cons, List.foldl_cons, List.foldl_nil, h1, h2]
  simp
  norm_num

/-- Claim C7: with a measure that fails (raises) on every tentative line,
`wrap_paragraph` degrades to the character-count heuristic and equals the
greedy wrap driven by character counts against
`int(available_width / (font_size * 0.5))`; the failure never escapes
(the function still returns a plain line list). -/
theorem C7_fallback_is_char_count_greedy (aw fs : ℚ) (p : String) :
    wrap_paragraph (fun _ => none) aw fs p
      = greedy_wrap (fun s => (s.length : ℚ)) ((maxCharsOf aw fs : ℤ) : ℚ)
          (pySplit p) := by
  rw [wrap_paragraph, wrapWords_fallback]

/-- Claim C8 counterexample: with a non-positive column width
(`available_width = 0`), the layout does not report any configuration
error and does not stop — it proceeds to lay out text (here the line
"hello" is placed), refuting the claim that invalid geometry is reported
before layout begins. -/
theorem C8_counterexample_zero_width_still_lays_out :
    Instr.placeLine "hello" 50
      ∈ layout (fun _ => some (1:ℚ)) ⟨100, 10, 20, 10, 0, 11⟩ 50 ["hello"] := by
  rw [layout_single (fun _ => some (1:ℚ)) ⟨100, 10, 20, 10, 0, 11⟩ 50 "hello"
    (show pySplit "hello" = ["hello"] from rfl)
    (show ¬ ((50:ℚ) - 10 < 20) by norm_num)]
  simp

/-- Claim C8 amended: the code contains no geometry validation at all;
with a non-positive column width (and any everywhere-positive measure) the
wrap still proceeds without error and terminates, placing each word after
the first on its own line (the whole word list becomes the line list). -/
theorem C8_amended_no_validation_one_word_per_line
    (m : String → ℚ) (aw fs : ℚ) (haw : aw ≤ 0) (hm : ∀ s, 0 < m s)
    (w : String) (ws : List String) :
    wrapWords (fun s => some (m s)) aw fs (w :: ws) = w :: ws := by
  have key : ∀ (ws' lines : List String) (cur : String),
      (ws'.foldl (wrapStep (fun s => some (m s)) aw fs) (lines, cur)).1
        ++ [(ws'.foldl (wrapStep (fun s => some (m s)) aw fs) (lines, cur)).2]
      = lines ++ cur :: ws' := by
    intro ws'
    induction ws' with
    | nil => intro lines cur; simp
    | cons wrd ws' ih =>
        intro lines cur
        have hb : ¬ (m (cur ++ " " ++ wrd) ≤ aw) :=
          not_le.mpr (lt_of_le_of_lt haw (hm _))
        rw [List.foldl_cons,
          @wrapStep_some_gt (fun s => some (m s)) aw fs
            (m (cur ++ " " ++ wrd)) lines cur wrd rfl hb,
          ih (lines ++ [cur]) wrd]
        simp
  simpa [wrapWords] using key ws [] w

/-- Witness for the amended C8 at a concrete input: column width 0,
constant measure 1, words "a" and "b" each end up on their own line. -/
theorem C8_amended_witness :
    wrapWords (fun _ => some (1:ℚ)) 0 11 ["a", "b"] = ["a", "b"] :=
  C8_amended_no_validation_one_word_per_line (fun _ => (1:ℚ)) 0 11
    le_rfl (fun _ => one_pos) "a" ["b"]

/-- Claim C9 (code bug evaluation): on an empty palette (every key
missing), `load_brand_colors` returns a mapping containing only
`neutral_white`; the keys the templates index — `warm_brown` (used as
`brand["warm_brown"]` with the comment `guaranteed by loader`), `indigo`,
`light_silver` — are absent, contradicting the claim (and the loader's own
docstring) that every indexed key is filled in with a hardcoded default. -/
theorem C9_loader_defaults_only_neutral_white :
    load_brand_colors [] = [("neutral_white", white)] ∧
    (load_brand_colors []).lookup "warm_brown" = none ∧
    (load_brand_colors []).lookup "indigo" = none ∧
    (load_brand_colors []).lookup "light_silver" = none :=
  ⟨rfl, rfl, rfl, rfl⟩

/-- Claim C10: for every output path, generating the letterhead template
fails: `templates/letterhead.py` imports `draw_footer_block`, `inch` and
`mm` from `templates.common`, which defines none of them, so importing
the module raises `ImportError` (at the first missing name,
`draw_footer_block`) before `generate` can run, and no document is
produced. -/
theorem C10_letterhead_generate_always_errors (output_path : String) :
    generate_template_letterhead output_path
      = Except.error "ImportError: cannot import name draw_footer_block" := rfl

end DiscreetKit
